import Mathlib

/-!
Shallow embedding of the lintflow core: the Gerrit review adapter
(src/review/gerrit.go: Fetch, Vote, unmarshal, unmarshalList) and the
concurrent lint dispatch engine (the lint package: Run, filter, marshal,
and the per-engine goroutine body).

File contents are `String`s; local storage paths are lists of cleaned
path segments; external library calls (JSON codecs, the RPC client) are
abstracted as explicit function parameters; goroutine nondeterminism is
made explicit by a choice sequence selecting which engine's pending
channel send is delivered next.
-/

/-! ## Path model (filepath.Join / Dir / Base / Ext on the relative paths this program builds) -/

/-- Split a string on the path separator; the accumulator holds the chars
of the current segment in reverse. -/
def splitSegsAux : List Char → List Char → List String
  | [], acc => [String.mk acc.reverse]
  | c :: rest, acc =>
    if c = '/' then String.mk acc.reverse :: splitSegsAux rest []
    else splitSegsAux rest (c :: acc)

/-- Cleaned path segments of a path string: split on the separator, drop
empty and current-directory components.  Joining two paths is appending
their segment lists, mirroring filepath.Join (followed by Clean) on the
relative paths this program constructs. -/
def segs (s : String) : List String :=
  (splitSegsAux s.data []).filter (fun x => !(x == "") && !(x == "."))

/-- Core of filepath.Ext: scan the reversed character list; stop with ""
at a separator, and at the first dot return the dot plus the characters
after it (held in `acc` in original order). -/
def extRev : List Char → List Char → String
  | [], _ => ""
  | c :: rest, acc =>
    if c = '/' then ""
    else if c = '.' then String.mk ('.' :: acc)
    else extRev rest (c :: acc)

/-- filepath.Ext: the suffix beginning at the final dot in the final
slash-separated element of the path; empty when there is no dot. -/
def fext (s : String) : String := extRev s.data.reverse []

/-- strings.TrimSuffix: drop the trailing `suffix` when present,
otherwise return the string unchanged. -/
def trimSuffix (s suffix : String) : String :=
  if suffix.data.isSuffixOf s.data then
    String.mk (s.data.take (s.data.length - suffix.data.length))
  else s

/-! ## Reserved staging names (package proto) -/

/-- Modelled from the spec: the reserved fixed file name under which Fetch
stages the unified patch (proto.Base64Patch; the proto package is not
under src/, the spec only calls it a reserved constant name). -/
def Base64Patch : String := "base64.patch"

/-- Modelled from the spec: the reserved suffix appended to a staged
content file's name marking it as encoded content (proto.Base64Content;
the proto package is not under src/, the spec only calls it a reserved
suffix). -/
def Base64Content : String := ".base64"

/-! ## Local staging storage -/

/-- Local storage as an association list from cleaned path segments to
file content; a later write for the same path shadows an earlier one. -/
abbrev FS : Type := List (List String × String)

/-- Read the content staged at path `p`, if any. -/
def readFS (fs : FS) (p : List String) : Option String :=
  (fs.find? (fun e => e.1 == p)).map (fun e => e.2)

/-- Write content `c` at path `p` (os.MkdirAll + os.Create + WriteString
in Fetch's helper), overwriting any previous content. -/
def writeFS (fs : FS) (p : List String) (c : String) : FS :=
  (p, c) :: fs

/-! ## Finding model (proto.Format) -/

/-- proto.Format: one lint finding with a file, line and message. -/
structure Format where
  file : String
  line : Int
  details : String
  deriving DecidableEq, Repr

/-! ## gerrit.Fetch staging (src/review/gerrit.go lines 46-130) -/

/-- The outcome of Fetch's staging: the updated storage, the returned
staging root and the returned file list. -/
structure FetchOut where
  fs : FS
  root : String
  files : List String
  deriving DecidableEq

/-- Where Fetch's helper stages a changed file `key`: the change/revision
directory `path` joined with Dir(key), and the file named
Base(key) + Base64Content (gerrit.go line 116). -/
def stagedContentPath (path : String) (key : String) : List String :=
  segs path ++ (segs key).dropLast ++ [(segs key).getLastD "" ++ Base64Content]

/-- The staging and return values of gerrit.Fetch, with the review-system
responses supplied as inputs: `changeNum` and `rev` from the decoded
query reply, `patch` the patch endpoint's body, and `contents` the
changed files paired with their content endpoint bodies.  Fetch writes
the patch under the reserved name and every changed file under
`root/changeNum/rev` with the content suffix, then returns `root` and
the list of the reserved patch name plus the original (unsuffixed)
changed-file paths (gerrit.go lines 68-129). -/
def fetchStage (fs0 : FS) (cwd date changeNum rev : String) (patch : String)
    (contents : List (String × String)) : FetchOut :=
  let root := cwd ++ "/gerrit-" ++ date
  let path := root ++ "/" ++ changeNum ++ "/" ++ rev
  let fs1 := writeFS fs0 (segs path ++ [Base64Patch]) patch
  let fs2 := contents.foldl (fun acc kc => writeFS acc (stagedContentPath path kc.1) kc.2) fs1
  { fs := fs2, root := root, files := Base64Patch :: contents.map (fun kc => kc.1) }

/-! ## gerrit.Vote payload construction (src/review/gerrit.go lines 132-147, 162-163) -/

/-- One inline comment entry: `{"line": item.Line, "message": item.Details}`. -/
structure CommentEntry where
  line : Int
  message : String
  deriving DecidableEq, Repr

/-- The configured vote parameters (config.Review.Vote: label, approval
value, disapproval value, message; the config package is not under src/,
only these four fields are read by Vote).  The value type is abstract. -/
structure VoteCfg (V : Type) where
  label : String
  approval : V
  disapproval : V
  message : String

/-- Lookup in the comments map (first entry whose key equals `fl`). -/
def clookup (c : List (String × List CommentEntry)) (fl : String) : Option (List CommentEntry) :=
  (c.find? (fun p => p.1 == fl)).map (fun p => p.2)

/-- One step of Vote's grouping loop: `c[item.File] = append(...)` when
the key is present, otherwise a fresh singleton entry. -/
def commentsAdd (c : List (String × List CommentEntry)) (fl : String) (b : CommentEntry) :
    List (String × List CommentEntry) :=
  if c.any (fun p => p.1 == fl) then
    c.map (fun p => if p.1 = fl then (p.1, p.2 ++ [b]) else p)
  else
    c ++ [(fl, [b])]

/-- Vote's grouping of findings by file (gerrit.go lines 137-145). -/
def groupComments (data : List Format) : List (String × List CommentEntry) :=
  data.foldl (fun c item => commentsAdd c item.file ⟨item.line, item.details⟩) []

/-- Vote's helper (gerrit.go lines 133-147): returns the comments map (or
none for the nil map), the labels map and the message of the posted
review body. -/
def voteHelper {V : Type} (cfg : VoteCfg V) (data : List Format) :
    Option (List (String × List CommentEntry)) × List (String × V) × String :=
  if data.length = 0 then
    (none, [(cfg.label, cfg.approval)], cfg.message)
  else
    (some (groupComments data), [(cfg.label, cfg.disapproval)], cfg.message)

/-- The per-file comment entries the spec expects for file `fl`: the
findings on `fl` in input order, each carrying line and message. -/
def entriesFor (data : List Format) (fl : String) : List CommentEntry :=
  (data.filter (fun x => x.file == fl)).map (fun x => ⟨x.line, x.details⟩)

/-! ## gerrit response decoding (src/review/gerrit.go lines 172-194) -/

/-- Go slice expression `data[i:]`: none (a slice-bounds fault) when `i`
exceeds the length, otherwise the suffix from index `i`. -/
def goSliceFrom (data : List Char) (i : Nat) : Option (List Char) :=
  if i ≤ data.length then some (data.drop i) else none

/-- gerrit.unmarshalList with json.Unmarshal abstracted as `dec`: slices
off the first 4 bytes (faulting on shorter input), decodes the remainder
to a list, errors on decode failure or an empty list, and otherwise
returns the first element.  The outer Option is absence of a runtime
fault. -/
def unmarshalList {α : Type} (dec : List Char → Except String (List α)) (data : List Char) :
    Option (Except String α) :=
  match goSliceFrom data 4 with
  | none => none
  | some rest =>
    some (match dec rest with
      | Except.error e => Except.error ("failed to unmarshal: " ++ e)
      | Except.ok [] => Except.error "failed to match"
      | Except.ok (x :: _) => Except.ok x)

/-- gerrit.unmarshal with json.Unmarshal abstracted as `dec`: slices off
the first 4 bytes (faulting on shorter input) and decodes the remainder
to a single object. -/
def unmarshal {α : Type} (dec : List Char → Except String α) (data : List Char) :
    Option (Except String α) :=
  match goSliceFrom data 4 with
  | none => none
  | some rest =>
    some (match dec rest with
      | Except.error e => Except.error ("failed to unmarshal: " ++ e)
      | Except.ok v => Except.ok v)

/-! ## lint package: filter, marshal, the goroutine body, Run's drain loop -/

/-- config.Filter as used by the lint package: the include extension set
(config package not under src/; only Include.Extension is read).  Named
ConfigFilter because Mathlib already claims the bare name. -/
structure ConfigFilter where
  includeExtension : List String

/-- config.Lint as used by the lint package: engine address and filter. -/
structure LintConf where
  host : String
  port : Int
  filter : ConfigFilter

/-- filter's inner helper: does any configured extension equal the
extension of the name after trimming the content suffix? -/
def filterHelper (f : ConfigFilter) (data : String) : Bool :=
  f.includeExtension.any (fun val => val == fext (trimSuffix data Base64Content))

/-- lint.filter (part_000 lines 96-117): keep, in input order, the names
accepted by the helper. -/
def filter (f : ConfigFilter) (data : List String) : List String :=
  data.foldl (fun buf val => if filterHelper f val then buf ++ [val] else buf) []

/-- Go map insert `buf[k] = v`: overwrite the existing entry for `k`, or
append a new one. -/
def mapInsert (buf : List (String × String)) (k v : String) : List (String × String) :=
  if buf.any (fun p => p.1 = k) then
    buf.map (fun p => if p.1 = k then (k, v) else p)
  else
    buf ++ [(k, v)]

/-- marshal's loop (part_000 lines 136-145): for each name, break with an
error on an empty name, read root/name (breaking on failure, with the
empty string already assigned to the map as Go's two-value assignment
does), otherwise record the content and continue. -/
def marshalLoop (fs : FS) (root : String) :
    List String → List (String × String) → List (String × String) × Option String
  | [], buf => (buf, none)
  | val :: rest, buf =>
    if val = "" then (buf, some "invalid data")
    else
      match readFS fs (segs root ++ segs val) with
      | none => (mapInsert buf val "", some "failed to open")
      | some c => marshalLoop fs root rest (mapInsert buf val c)

/-- lint.marshal (part_000 lines 119-161): build the name-to-content map
by joining `root` with each listed name; an empty resulting map is
"invalid data"; a loop error is wrapped as "failed to read"; otherwise
the map is the JSON payload. -/
def marshal (fs : FS) (root : String) (data : List String) :
    Except String (List (String × String)) :=
  let r := marshalLoop fs root data []
  if r.1.length = 0 then Except.error "invalid data"
  else
    match r.2 with
    | some e => Except.error ("failed to read: " ++ e)
    | none => Except.ok r.1

/-- One value sent on Run's result channel (the goroutine-local `result`
struct: findings plus an optional error). -/
structure RunResult where
  data : List Format
  err : Option String
  deriving DecidableEq, Repr

/-- The body of Run's per-engine goroutine (part_000 lines 63-78), with
the RPC call `routine` abstracted as a function of the (possibly nil)
marshaled payload.  Returns the list of channel sends in order, plus how
many RPC calls were made.  Mirrors the source exactly: after an error
send the goroutine does NOT return, so it falls through to the RPC call
and to the final success send. -/
def engineTask (fs : FS) (root : String) (cfg : LintConf) (files : List String)
    (routine : Option (List (String × String)) → Except String (List Format)) :
    List RunResult × Nat :=
  let f := filter cfg.filter files
  if f.length ≠ 0 then
    let mres := marshal fs root f
    let s1 : List RunResult :=
      match mres with
      | Except.ok _ => []
      | Except.error e => [⟨[], some ("failed to marshal: " ++ e)⟩]
    let rres := routine mres.toOption
    let s2 : List RunResult :=
      match rres with
      | Except.ok _ => []
      | Except.error e => [⟨[], some ("failed to routine: " ++ e)⟩]
    let r : List Format :=
      match rres with
      | Except.ok d => d
      | Except.error _ => []
    (s1 ++ s2 ++ [⟨r, none⟩], 1)
  else
    ([⟨[], none⟩], 0)

/-- Run's drain loop (part_000 lines 83-91): receive results in channel
arrival order, return the first error immediately (discarding `ret`),
otherwise append non-empty data to the accumulator. -/
def drainLoop : List RunResult → List Format → Except String (List Format)
  | [], ret => Except.ok ret
  | r :: rest, ret =>
    match r.err with
    | some e => Except.error e
    | none => drainLoop rest (ret ++ (if r.data.length ≠ 0 then r.data else []))

/-- Run's aggregation over the results in arrival order. -/
def drain (arrivals : List RunResult) : Except String (List Format) :=
  drainLoop arrivals []

/-- The error carried by the first arriving result that has one. -/
def firstErr : List RunResult → Option String
  | [] => none
  | r :: rest =>
    match r.err with
    | some e => some e
    | none => firstErr rest

/-- Channel delivery order: given each goroutine's pending sends (FIFO
per producer) and a schedule choosing a producer index at each step,
produce the order in which results are received. -/
def mergeQueues : List (List RunResult) → List Nat → List RunResult
  | _, [] => []
  | qs, i :: rest =>
    match qs.get? i with
    | some (x :: q) => x :: mergeQueues (qs.set i q) rest
    | _ => mergeQueues qs rest

/-- The observable outcome of lint.Run (part_000 lines 54-94). -/
structure RunOut where
  res : Except String (List Format)
  rpc : Nat
  tasks : Nat

/-- lint.Run under an explicit schedule: launch one task per configured
engine (each given its own RPC oracle), deliver their channel sends in
the order fixed by `choices`, and drain exactly one result per engine. -/
def runModel (cfgs : List LintConf) (fs : FS) (root : String) (files : List String)
    (oracles : Nat → Option (List (String × String)) → Except String (List Format))
    (choices : List Nat) : RunOut :=
  let ts := cfgs.enum.map (fun p => engineTask fs root p.2 files (oracles p.1))
  let arrivals := (mergeQueues (ts.map (fun t => t.1)) choices).take cfgs.length
  { res := drain arrivals, rpc := (ts.map (fun t => t.2)).sum, tasks := ts.length }

/-! ## Concrete instances used by witnesses and counterexamples -/

/-- An RPC oracle that always fails to dial. -/
def routineDialFail : Option (List (String × String)) → Except String (List Format) :=
  fun _ => Except.error "failed to dial"

/-- A finding reported by the first configured engine. -/
def fmtA : Format := ⟨"a.go", 1, "m1"⟩

/-- A finding reported by the second configured engine. -/
def fmtB : Format := ⟨"a.go", 2, "m2"⟩

/-- An engine configuration that includes only the .go extension. -/
def cfgGo (n : Int) : LintConf := ⟨"h", n, ⟨[".go"]⟩⟩

/-- Storage holding one staged file w/a.go. -/
def fsGo : FS := [(["w", "a.go"], "x")]

/-- Engine 0 replies with fmtA, every other engine with fmtB. -/
def oraclesAB : Nat → Option (List (String × String)) → Except String (List Format) :=
  fun i _ => if i = 0 then Except.ok [fmtA] else Except.ok [fmtB]

/-- A list decoder standing in for json.Unmarshal into a list: an empty
body decodes to the empty list, anything else to the one-element list. -/
def decListNat : List Char → Except String (List Nat) :=
  fun rest => if rest.length = 0 then Except.ok [] else Except.ok [7]

/-- A vote configuration with Int label values. -/
def cfgVoteW : VoteCfg Int := ⟨"Code-Review", 1, -1, "done"⟩

/-- Findings on files A (line 3) and B (line 7), the spec's own example. -/
def dataVoteW : List Format := [⟨"A", 3, "m1"⟩, ⟨"B", 7, "m2"⟩]

/-! ## Helper lemmas -/

theorem ifGuard_eq (l : List Format) : (if l.length ≠ 0 then l else []) = l := by
  cases l <;> simp

theorem any_beq_eq_mem (x : String) : ∀ l : List String, (l.any fun v => v == x) = decide (x ∈ l)
  | [] => by simp
  | a :: t => by
    by_cases h : a = x
    · subst h; simp
    · have hx : ¬(x = a) := fun hh => h hh.symm
      simp [List.any_cons, any_beq_eq_mem x t, List.mem_cons, h, hx]

theorem filterHelper_eq (f : ConfigFilter) (v : String) :
    filterHelper f v = decide (fext (trimSuffix v Base64Content) ∈ f.includeExtension) := by
  rw [filterHelper]
  exact any_beq_eq_mem _ _

theorem foldl_filterStep (p : String → Bool) (data : List String) :
    ∀ acc : List String,
      data.foldl (fun buf val => if p val then buf ++ [val] else buf) acc
        = acc ++ data.filter p := by
  induction data with
  | nil => intro acc; simp
  | cons a t ih =>
    intro acc
    by_cases h : p a <;> simp [List.foldl_cons, h, ih, List.filter_cons]

theorem filter_characterization (f : ConfigFilter) (data : List String) :
    filter f data
      = data.filter (fun v => decide (fext (trimSuffix v Base64Content) ∈ f.includeExtension)) := by
  rw [filter, foldl_filterStep, List.nil_append]
  exact List.filter_congr (fun v _ => filterHelper_eq f v)

theorem drainLoop_ok : ∀ (arrivals : List RunResult), (∀ r ∈ arrivals, r.err = none) →
    ∀ ret, drainLoop arrivals ret = Except.ok (ret ++ arrivals.flatMap RunResult.data) := by
  intro arrivals
  induction arrivals with
  | nil => intro _ ret; simp [drainLoop]
  | cons r rest ih =>
    intro h ret
    have hr : r.err = none := h r (List.mem_cons_self r rest)
    rw [drainLoop.eq_def]
    simp only [hr, ifGuard_eq]
    rw [ih (fun x hx => h x (List.mem_cons_of_mem r hx)) (ret ++ r.data)]
    simp [List.flatMap_cons, List.append_assoc]

theorem drainLoop_firstErr : ∀ (arrivals : List RunResult) (e : String),
    firstErr arrivals = some e → ∀ ret, drainLoop arrivals ret = Except.error e := by
  intro arrivals
  induction arrivals with
  | nil => intro e h; simp [firstErr] at h
  | cons r rest ih =>
    intro e h ret
    cases hr : r.err with
    | some e2 =>
      rw [firstErr.eq_def] at h
      simp only [hr] at h
      rw [drainLoop.eq_def]
      simp only [hr]
      exact congrArg Except.error (Option.some.inj h)
    | none =>
      rw [firstErr.eq_def] at h
      simp only [hr] at h
      rw [drainLoop.eq_def]
      simp only [hr]
      exact ih e h _

/-! ## Claim theorems -/

/-- Claim C6: for every file list and every extension include set, filter
returns exactly the subset of input file names whose extension — computed
after stripping the content-suffix marker — is in the include set,
preserving input order. -/
theorem filter_spec (f : ConfigFilter) (data : List String) :
    filter f data
      = data.filter (fun v => decide (fext (trimSuffix v Base64Content) ∈ f.includeExtension)) :=
  filter_characterization f data

/-- Claim C7: an engine whose include set matches none of the input files
runs no marshal step and no RPC call, and sends exactly one result with
an empty finding list and no error. -/
theorem empty_filter_short_circuit (fs : FS) (root : String) (cfg : LintConf)
    (files : List String)
    (routine : Option (List (String × String)) → Except String (List Format))
    (h : ∀ v ∈ files, fext (trimSuffix v Base64Content) ∉ cfg.filter.includeExtension) :
    engineTask fs root cfg files routine = ([⟨[], none⟩], 0) := by
  have hf : filter cfg.filter files = [] := by
    rw [filter_characterization]
    refine List.filter_eq_nil_iff.mpr ?_
    intro v hv
    simpa using h v hv
  simp [engineTask, hf]

/-- Witness for C7 at a concrete disjoint configuration. -/
theorem empty_filter_short_circuit_witness :
    engineTask [] "w" (cfgGo 1) ["b.txt"] routineDialFail = ([⟨[], none⟩], 0) :=
  empty_filter_short_circuit [] "w" (cfgGo 1) ["b.txt"] routineDialFail (by decide)

/-- Claim C4: Run's drain loop returns the first error it receives (and
no findings, discarding data already gathered) whenever any drained
result carries an error. -/
theorem run_fail_fast (arrivals : List RunResult) (e : String)
    (h : firstErr arrivals = some e) : drain arrivals = Except.error e :=
  drainLoop_firstErr arrivals e h []

/-- Witness for C4: a success with findings followed by an error yields
that error and discards the findings. -/
theorem run_fail_fast_witness :
    drain [⟨[fmtA], none⟩, ⟨[], some "failed to routine: failed to dial"⟩]
      = Except.error "failed to routine: failed to dial" :=
  run_fail_fast _ _ (by rfl)

/-- Counterexample to claim C3 as stated: with two engines configured in
order (engine 0 replying fmtA, engine 1 replying fmtB) and a schedule on
which engine 1's result arrives first, Run returns [fmtB, fmtA] — the
completion order — which differs from the configuration-order
concatenation [fmtA, fmtB]. -/
theorem run_completion_order_counterexample :
    (runModel [cfgGo 1, cfgGo 2] fsGo "w" ["a.go"] oraclesAB [1, 0]).res
      = Except.ok [fmtB, fmtA] ∧ [fmtB, fmtA] ≠ [fmtA, fmtB] :=
  ⟨rfl, by decide⟩

/-- Claim C3 as amended: when every drained result is a success, Run
returns the concatenation of the results' findings in channel arrival
order (order within each result preserved); configuration order is not
guaranteed. -/
theorem run_concat_in_arrival_order (arrivals : List RunResult)
    (h : ∀ r ∈ arrivals, r.err = none) :
    drain arrivals = Except.ok (arrivals.flatMap RunResult.data) :=
  drainLoop_ok arrivals h []

/-- Witness for amended C3 at a concrete all-success arrival order. -/
theorem run_concat_in_arrival_order_witness :
    drain [⟨[fmtA], none⟩, ⟨[fmtB], none⟩] = Except.ok [fmtA, fmtB] := by
  rw [run_concat_in_arrival_order [⟨[fmtA], none⟩, ⟨[fmtB], none⟩] (by decide)]
  rfl

/-- Claim C10: Run with zero configured engines launches no task, makes
no RPC call, and returns an empty finding list with no error, for every
root, file list, oracle family and schedule. -/
theorem run_no_engines (fs : FS) (root : String) (files : List String)
    (oracles : Nat → Option (List (String × String)) → Except String (List Format))
    (choices : List Nat) :
    runModel [] fs root files oracles choices = ⟨Except.ok [], 0, 0⟩ :=
  rfl

/-- Claim C2 (code bug): the per-engine goroutine does not return after
sending an error, so when marshaling fails it sends an error result,
falls through into the RPC call, and sends up to two further results: at
the concrete failing input below, three results are sent for one engine,
not the exactly-one result the spec requires. -/
theorem run_goroutine_multiple_sends :
    (engineTask [] "w" (cfgGo 1) ["a.go"] routineDialFail).1
      = [⟨[], some "failed to marshal: failed to read: failed to open"⟩,
         ⟨[], some "failed to routine: failed to dial"⟩,
         ⟨[], none⟩] ∧
    (engineTask [] "w" (cfgGo 1) ["a.go"] routineDialFail).1.length = 3 :=
  ⟨rfl, rfl⟩

/-- Claim C1 (code bug): Fetch stages a changed file's content under
root/changeNum/revision with the content suffix appended, but returns
the bare root and the unsuffixed original path; marshal joins the
returned root with the listed name, so at this concrete input the staged
content "hello" is present on storage yet marshal fails to open the
listed file instead of reading "hello" back. -/
theorem fetch_marshal_staging_mismatch :
    (fetchStage [] "w" "2021-01-01" "1" "rev1" "PATCH" [("a.go", "hello")]).files
        = [Base64Patch, "a.go"] ∧
    readFS (fetchStage [] "w" "2021-01-01" "1" "rev1" "PATCH" [("a.go", "hello")]).fs
        (segs "w/gerrit-2021-01-01/1/rev1" ++ ["a.go" ++ Base64Content]) = some "hello" ∧
    marshal (fetchStage [] "w" "2021-01-01" "1" "rev1" "PATCH" [("a.go", "hello")]).fs
        (fetchStage [] "w" "2021-01-01" "1" "rev1" "PATCH" [("a.go", "hello")]).root
        ["a.go"]
      = Except.error "failed to read: failed to open" :=
  ⟨rfl, rfl, rfl⟩

/-! ## Grouping lemmas for the Vote comments map -/

theorem clookup_cons (a : String × List CommentEntry) (t : List (String × List CommentEntry))
    (x : String) :
    clookup (a :: t) x = if a.1 = x then some a.2 else clookup t x := by
  by_cases h : a.1 = x <;> simp [clookup, List.find?_cons, h]

theorem clookup_map_update (fl : String) (b : CommentEntry) :
    ∀ (c : List (String × List CommentEntry)) (x : String),
      clookup (c.map (fun p => if p.1 = fl then (p.1, p.2 ++ [b]) else p)) x
        = if x = fl then (clookup c x).map (fun l => l ++ [b]) else clookup c x
  | [], x => by by_cases hx : x = fl <;> simp [clookup, hx]
  | a :: t, x => by
    rw [List.map_cons, clookup_cons, clookup_cons]
    by_cases hax : a.1 = x
    · by_cases hx : x = fl
      · have ha : a.1 = fl := by rw [hax, hx]
        simp [ha, hax, hx]
      · have ha : ¬(a.1 = fl) := by rw [hax]; exact hx
        simp [ha, hax, hx]
    · by_cases ha : a.1 = fl
      · have hfx : ¬(fl = x) := by rw [← ha]; exact hax
        have hxf : ¬(x = fl) := fun hh => hfx hh.symm
        simp [ha, hax, hfx, hxf, clookup_map_update fl b t x]
      · simp [ha, hax, clookup_map_update fl b t x]

theorem clookup_append_last (fl : String) (b : CommentEntry) :
    ∀ (c : List (String × List CommentEntry)) (x : String), clookup c x = none →
      clookup (c ++ [(fl, [b])]) x = if x = fl then some [b] else none
  | [], x => by
    intro _
    by_cases hx : x = fl
    · subst hx; simp [clookup]
    · have hfx : ¬(fl = x) := fun hh => hx hh.symm
      simp [clookup, hfx, hx]
  | a :: t, x => by
    intro h
    rw [clookup_cons] at h
    by_cases hax : a.1 = x
    · rw [if_pos hax] at h; exact absurd h (by simp)
    · rw [if_neg hax] at h
      rw [List.cons_append, clookup_cons, if_neg hax]
      exact clookup_append_last fl b t x h

theorem clookup_append_of_some (d : List (String × List CommentEntry)) :
    ∀ (c : List (String × List CommentEntry)) (x : String) (l : List CommentEntry),
      clookup c x = some l → clookup (c ++ d) x = some l
  | [], x, l => by intro h; simp [clookup] at h
  | a :: t, x, l => by
    intro h
    rw [clookup_cons] at h
    rw [List.cons_append, clookup_cons]
    by_cases hax : a.1 = x
    · rw [if_pos hax] at h ⊢; exact h
    · rw [if_neg hax] at h ⊢
      exact clookup_append_of_some d t x l h

theorem clookup_isSome_of_any (x : String) :
    ∀ c : List (String × List CommentEntry), (c.any fun p => p.1 == x) = true →
      (clookup c x).isSome = true
  | [], h => by simp at h
  | a :: t, h => by
    rw [clookup_cons]
    by_cases hax : a.1 = x
    · simp [hax]
    · rw [if_neg hax]
      rw [List.any_cons] at h
      have : (t.any fun p => p.1 == x) = true := by
        rcases Bool.or_eq_true_iff.mp h with h1 | h1
        · exact absurd (by simpa using h1) hax
        · exact h1
      exact clookup_isSome_of_any x t this

theorem clookup_none_of_not_any (x : String) :
    ∀ c : List (String × List CommentEntry), (c.any fun p => p.1 == x) = false →
      clookup c x = none
  | [], _ => by simp [clookup]
  | a :: t, h => by
    rw [List.any_cons, Bool.or_eq_false_iff] at h
    rw [clookup_cons, if_neg (by simpa using h.1)]
    exact clookup_none_of_not_any x t h.2

theorem clookup_commentsAdd (c : List (String × List CommentEntry)) (fl : String)
    (b : CommentEntry) (x : String) :
    clookup (commentsAdd c fl b) x
      = if x = fl then some ((clookup c x).getD [] ++ [b]) else clookup c x := by
  rw [commentsAdd]
  by_cases hany : (c.any fun p => p.1 == fl) = true
  · rw [if_pos hany, clookup_map_update]
    by_cases hx : x = fl
    · subst hx
      have hsome := clookup_isSome_of_any x c hany
      cases hcl : clookup c x with
      | none => rw [hcl] at hsome; simp at hsome
      | some l => simp [hcl]
    · simp [hx]
  · rw [if_neg hany]
    have hnone : clookup c fl = none :=
      clookup_none_of_not_any fl c (Bool.eq_false_iff.mpr hany)
    by_cases hx : x = fl
    · have hnx : clookup c x = none := by rw [hx]; exact hnone
      rw [if_pos hx, clookup_append_last fl b c x hnx, if_pos hx, hnx]
      simp
    · rw [if_neg hx]
      rcases hcl : clookup c x with _ | l
      · rw [clookup_append_last fl b c x hcl, if_neg hx]
      · rw [clookup_append_of_some [(fl, [b])] c x l hcl]

theorem entriesFor_eq_nil (rest : List Format) (x : String)
    (h : (rest.any fun i => i.file == x) = false) : entriesFor rest x = [] := by
  rw [entriesFor, List.filter_eq_nil_iff.mpr (List.any_eq_false.mp h), List.map_nil]

theorem entriesFor_cons (it : Format) (rest : List Format) (x : String) :
    entriesFor (it :: rest) x
      = if it.file == x then (⟨it.line, it.details⟩ : CommentEntry) :: entriesFor rest x
        else entriesFor rest x := by
  by_cases h : it.file = x <;> simp [entriesFor, List.filter_cons, h]

theorem clookup_groupAux :
    ∀ (data : List Format) (c : List (String × List CommentEntry)) (x : String),
      clookup (data.foldl (fun c item => commentsAdd c item.file ⟨item.line, item.details⟩) c) x
        = if data.any (fun it => it.file == x)
          then some ((clookup c x).getD [] ++ entriesFor data x)
          else clookup c x
  | [], c, x => by simp [entriesFor]
  | it :: rest, c, x => by
    rw [List.foldl_cons, clookup_groupAux rest (commentsAdd c it.file ⟨it.line, it.details⟩) x,
        clookup_commentsAdd]
    by_cases hx : it.file = x
    · subst hx
      by_cases hr : (rest.any fun i => i.file == it.file) = true
      · simp [hr, entriesFor_cons, List.any_cons, List.append_assoc]
      · have hres : entriesFor rest it.file = [] :=
          entriesFor_eq_nil rest it.file (Bool.eq_false_iff.mpr hr)
        simp [hr, entriesFor_cons, List.any_cons, hres]
    · have hxf : ¬(x = it.file) := fun hh => hx hh.symm
      simp [hx, hxf, entriesFor_cons, List.any_cons]

theorem clookup_groupComments (data : List Format) (x : String) :
    clookup (groupComments data) x
      = if data.any (fun it => it.file == x) then some (entriesFor data x) else none := by
  rw [groupComments, clookup_groupAux data [] x]
  simp [clookup]

/-- Claim C5: Vote with an empty findings list posts the configured
approval label value with the configured message and no inline comments;
Vote with a non-empty findings list posts the configured disapproval
label value, the configured message, and a comments map grouping the
findings by file, each file's entries carrying line and message in input
order. -/
theorem vote_branching {V : Type} (cfg : VoteCfg V) (data : List Format) :
    (data = [] → voteHelper cfg data = (none, [(cfg.label, cfg.approval)], cfg.message)) ∧
    (data ≠ [] →
      voteHelper cfg data
          = (some (groupComments data), [(cfg.label, cfg.disapproval)], cfg.message) ∧
      ∀ fl, clookup (groupComments data) fl
          = if data.any (fun it => it.file == fl) then some (entriesFor data fl) else none) := by
  constructor
  · intro h; subst h; rfl
  · intro h
    refine ⟨?_, fun fl => clookup_groupComments data fl⟩
    rw [voteHelper, if_neg]
    simpa [List.length_eq_zero] using h

/-- Witness for C5 at the spec's example: no findings approve; findings
on files A (line 3) and B (line 7) disapprove with a comments map whose
keys A and B each hold one entry. -/
theorem vote_branching_witness :
    voteHelper cfgVoteW ([] : List Format)
        = (none, [("Code-Review", (1 : Int))], "done") ∧
    voteHelper cfgVoteW dataVoteW
        = (some (groupComments dataVoteW), [("Code-Review", (-1 : Int))], "done") ∧
    clookup (groupComments dataVoteW) "A" = some [⟨3, "m1"⟩] ∧
    clookup (groupComments dataVoteW) "B" = some [⟨7, "m2"⟩] := by
  have h1 := (vote_branching cfgVoteW []).1 rfl
  have h2 := (vote_branching cfgVoteW dataVoteW).2 (by decide)
  refine ⟨h1, h2.1, ?_, ?_⟩
  · rw [h2.2 "A"]; rfl
  · rw [h2.2 "B"]; rfl

/-- Claim C8: the decode step strips exactly the first 4 bytes before
JSON decoding; a remainder decoding to a non-empty list yields its first
element, a decoded empty list yields the no-match error, and a decode
failure yields a wrapped decode error — never a silent empty result. -/
theorem unmarshalList_decode_spec {α : Type} (dec : List Char → Except String (List α))
    (pre rest : List Char) (h : pre.length = 4) :
    (∀ x xs, dec rest = Except.ok (x :: xs) →
        unmarshalList dec (pre ++ rest) = some (Except.ok x)) ∧
    (dec rest = Except.ok [] →
        unmarshalList dec (pre ++ rest) = some (Except.error "failed to match")) ∧
    (∀ e, dec rest = Except.error e →
        unmarshalList dec (pre ++ rest) = some (Except.error ("failed to unmarshal: " ++ e))) := by
  have hslice : goSliceFrom (pre ++ rest) 4 = some rest := by
    rw [goSliceFrom, if_pos, ← h, List.drop_left]
    rw [List.length_append, h]
    omega
  refine ⟨fun x xs hd => ?_, fun hd => ?_, fun e hd => ?_⟩ <;>
    simp [unmarshalList, hslice, hd]

/-- Witness for C8: a 4-byte magic plus a body decoding to [7] yields ok
7; the same magic with a body decoding to the empty list yields the
no-match error. -/
theorem unmarshalList_decode_spec_witness :
    unmarshalList decListNat ("abcd".data ++ "zz".data) = some (Except.ok 7) ∧
    unmarshalList decListNat ("abcd".data ++ "".data) = some (Except.error "failed to match") :=
  ⟨(unmarshalList_decode_spec decListNat "abcd".data "zz".data (by rfl)).1 7 [] (by rfl),
   (unmarshalList_decode_spec decListNat "abcd".data "".data (by rfl)).2.1 (by rfl)⟩

/-- Claim C9: on any response body shorter than 4 bytes, both decode
functions perform the unguarded slice data[4:] and fault instead of
returning an error value: the embedding yields the fault marker none,
for every decoder. -/
theorem unmarshal_short_input_fault {α β : Type}
    (decL : List Char → Except String (List α)) (decO : List Char → Except String β)
    (data : List Char) (h : data.length < 4) :
    unmarshalList decL data = none ∧ unmarshal decO data = none := by
  have hs : goSliceFrom data 4 = none := by
    rw [goSliceFrom, if_neg]
    omega
  constructor <;> simp [unmarshalList, unmarshal, hs]

/-- Witness for C9 at a 2-byte body. -/
theorem unmarshal_short_input_fault_witness :
    unmarshalList decListNat "ab".data = none ∧
    unmarshal (fun rest => Except.ok rest.length) "ab".data = none :=
  unmarshal_short_input_fault decListNat (fun rest => Except.ok rest.length) "ab".data
    (by decide)
